import Mathlib

/-!
Shallow embedding of the `crafty_novels` conversion pipeline:
the Stendhal tokenizer (`src/format/stendhal/parse.rs`), the Minecraft
format-code tables (`src/syntax/minecraft/`), and the HTML renderer
(`src/format/html/`).

Modelling conventions:
- Rust `Vec<T>` used as an output buffer (`output.push`) is a `List` that
  grows by appending on the right, so pushes appear in order.
- The mutable format token stack of the renderer is a `List Format` whose
  head is the push/pop end of the `Vec` (both operations act on the same end,
  so this is exact).
- `Result<T, Error>` is `Except Error T`; writing into the UTF-8 writer is
  string concatenation.  The `Io`/`Fmt`/`Utf8` error variants wrap foreign
  types that cannot occur in the pure model and are omitted.
-/

namespace CraftyNovels

/-- A 24-bit RGB color value, `src/syntax/minecraft/color`: `Rgb`. -/
structure Rgb where
  red : Nat
  green : Nat
  blue : Nat
  deriving DecidableEq, Repr

/-- The 16 named Minecraft text colors, `src/syntax/minecraft/color`: `Color`. -/
inductive Color where
  | black
  | darkBlue
  | darkGreen
  | darkAqua
  | darkRed
  | darkPurple
  | gold
  | gray
  | darkGray
  | blue
  | green
  | aqua
  | red
  | lightPurple
  | yellow
  | white
  deriving DecidableEq, Repr

/-- The ways Minecraft formats text, `src/syntax/minecraft/mod.rs`: `Format`. -/
inductive Format where
  | color (c : Color)
  | obfuscated
  | bold
  | strikethrough
  | underline
  | italic
  | reset
  deriving DecidableEq, Repr

/-- A lexical token, `src/syntax/mod.rs`: `Token`. -/
inductive Token where
  | text (s : String)
  | format (f : Format)
  | space
  | lineBreak
  | paragraphBreak
  | thematicBreak
  deriving DecidableEq, Repr

/-- Metadata about a work, `src/syntax/mod.rs`: `Metadata`. -/
inductive Metadata where
  | title (s : String)
  | author (s : String)
  deriving DecidableEq, Repr

/-- The crate error type, `src/error.rs`: `Error` (pure variants only). -/
inductive Error where
  | invalidFormatCodeString (s : String)
  | noSuchFormatCode (c : Char)
  | missingFormatCode
  | noSuchCharLiteral (c : Char)
  | unexpectedEndOfIter
  | incompleteOrMissingFrontmatter
  | unexpectedToken (t : Token)
  deriving DecidableEq, Repr

/-- Conversion errors, `src/syntax/error.rs`: `ConversionError` (pure variants only). -/
inductive ConversionError where
  | invalidFormatCodeString (s : String)
  | noSuchFormatCode (c : Char)
  | missingFormatCode
  deriving DecidableEq, Repr

/-- The data attached to a `Color`, `src/syntax/minecraft/color/mod.rs`: `ColorValue`. -/
structure ColorValue where
  color : Color
  name : String
  fg : Rgb
  bg : Rgb
  deriving DecidableEq, Repr

/-- The hardcoded color table, `src/syntax/minecraft/color/mod.rs`:
`impl From<Color> for ColorValue`. -/
def colorValue : Color → ColorValue
  | .black => ⟨.black, "black", ⟨0, 0, 0⟩, ⟨0, 0, 0⟩⟩
  | .darkBlue => ⟨.darkBlue, "dark_blue", ⟨0, 0, 170⟩, ⟨0, 0, 42⟩⟩
  | .darkGreen => ⟨.darkGreen, "dark_green", ⟨0, 170, 0⟩, ⟨0, 42, 0⟩⟩
  | .darkAqua => ⟨.darkAqua, "dark_aqua", ⟨0, 170, 170⟩, ⟨0, 42, 42⟩⟩
  | .darkRed => ⟨.darkRed, "dark_red", ⟨170, 0, 0⟩, ⟨42, 0, 0⟩⟩
  | .darkPurple => ⟨.darkPurple, "dark_purple", ⟨170, 0, 170⟩, ⟨42, 0, 42⟩⟩
  | .gold => ⟨.gold, "gold", ⟨255, 170, 0⟩, ⟨42, 42, 0⟩⟩
  | .gray => ⟨.gray, "gray", ⟨170, 170, 170⟩, ⟨42, 42, 42⟩⟩
  | .darkGray => ⟨.darkGray, "dark_gray", ⟨85, 85, 85⟩, ⟨21, 21, 21⟩⟩
  | .blue => ⟨.blue, "blue", ⟨85, 85, 255⟩, ⟨21, 21, 63⟩⟩
  | .green => ⟨.green, "green", ⟨85, 255, 85⟩, ⟨21, 63, 21⟩⟩
  | .aqua => ⟨.aqua, "aqua", ⟨85, 255, 255⟩, ⟨21, 63, 63⟩⟩
  | .red => ⟨.red, "red", ⟨255, 85, 85⟩, ⟨63, 21, 21⟩⟩
  | .lightPurple => ⟨.lightPurple, "light_purple", ⟨255, 85, 255⟩, ⟨63, 21, 63⟩⟩
  | .yellow => ⟨.yellow, "yellow", ⟨255, 255, 85⟩, ⟨63, 63, 21⟩⟩
  | .white => ⟨.white, "white", ⟨255, 255, 255⟩, ⟨63, 63, 63⟩⟩

/-- One uppercase hexadecimal digit, as the Rust `{:X}` formatting produces. -/
def hexDigit (n : Nat) : Char :=
  if n < 10 then Char.ofNat (48 + n) else Char.ofNat (65 + (n - 10))

/-- Uppercase hexadecimal rendering of a byte, as the Rust `{:X}` on a `u8`
(no zero padding; one digit below 16, two digits otherwise).  The color
components are `u8`, so two digits always suffice. -/
def hexUpper (n : Nat) : String :=
  if n < 16 then String.singleton (hexDigit n)
  else String.singleton (hexDigit (n / 16)) ++ String.singleton (hexDigit (n % 16))

/-- `Display for Rgb` (`src/syntax/minecraft/color/display.rs`): `"#RRGGBB"`,
each component via `{:X}`. -/
def rgbDisplay (rgb : Rgb) : String :=
  "#" ++ hexUpper rgb.red ++ hexUpper rgb.green ++ hexUpper rgb.blue

/-- `Display for Color` (`src/syntax/minecraft/color/display.rs`): displays the
foreground color of the associated `ColorValue`. -/
def colorDisplay (c : Color) : String :=
  rgbDisplay (colorValue c).fg

namespace Format

/-- The code→`Format` lookup used by the tokenizer,
`src/syntax/minecraft/mod.rs`: `impl TryFrom<FormatCode> for Format`
(reached from a `char` via `impl TryFrom<char> for Format`). -/
def tryFromChar (code : Char) : Except Error Format :=
  if code = '0' then .ok (.color .black)
  else if code = '1' then .ok (.color .darkBlue)
  else if code = '2' then .ok (.color .darkGreen)
  else if code = '3' then .ok (.color .darkAqua)
  else if code = '4' then .ok (.color .darkRed)
  else if code = '5' then .ok (.color .darkPurple)
  else if code = '6' then .ok (.color .gold)
  else if code = '7' then .ok (.color .gray)
  else if code = '8' then .ok (.color .darkGray)
  else if code = '9' then .ok (.color .blue)
  else if code = 'a' then .ok (.color .green)
  else if code = 'b' then .ok (.color .aqua)
  else if code = 'c' then .ok (.color .red)
  else if code = 'd' then .ok (.color .lightPurple)
  else if code = 'e' then .ok (.color .yellow)
  else if code = 'f' then .ok (.color .white)
  else if code = 'k' then .ok .obfuscated
  else if code = 'l' then .ok .bold
  else if code = 'm' then .ok .strikethrough
  else if code = 'n' then .ok .underline
  else if code = 'o' then .ok .italic
  else if code = 'r' then .ok .reset
  else .error (.noSuchFormatCode code)

end Format

/-- A recognized format code with its resolved format,
`src/syntax/minecraft/format_code/mod.rs`: `FormatCode`. -/
structure FormatCode where
  code : Char
  format : Format
  deriving DecidableEq, Repr

namespace FormatCode

/-- Char→`FormatCode` lookup, `src/syntax/minecraft/format_code/fallible.rs`:
`impl TryFrom<char> for FormatCode`. -/
def tryFromChar (code : Char) : Except ConversionError FormatCode :=
  if code = '0' then .ok ⟨code, .color .black⟩
  else if code = '1' then .ok ⟨code, .color .darkBlue⟩
  else if code = '2' then .ok ⟨code, .color .darkGreen⟩
  else if code = '3' then .ok ⟨code, .color .darkAqua⟩
  else if code = '4' then .ok ⟨code, .color .darkRed⟩
  else if code = '5' then .ok ⟨code, .color .darkPurple⟩
  else if code = '6' then .ok ⟨code, .color .gold⟩
  else if code = '7' then .ok ⟨code, .color .gray⟩
  else if code = '8' then .ok ⟨code, .color .darkGray⟩
  else if code = '9' then .ok ⟨code, .color .blue⟩
  else if code = 'a' then .ok ⟨code, .color .green⟩
  else if code = 'b' then .ok ⟨code, .color .aqua⟩
  else if code = 'c' then .ok ⟨code, .color .red⟩
  else if code = 'd' then .ok ⟨code, .color .lightPurple⟩
  else if code = 'e' then .ok ⟨code, .color .yellow⟩
  else if code = 'f' then .ok ⟨code, .color .white⟩
  else if code = 'k' then .ok ⟨code, .obfuscated⟩
  else if code = 'l' then .ok ⟨code, .bold⟩
  else if code = 'm' then .ok ⟨code, .strikethrough⟩
  else if code = 'n' then .ok ⟨code, .underline⟩
  else if code = 'o' then .ok ⟨code, .italic⟩
  else if code = 'r' then .ok ⟨code, .reset⟩
  else .error (.noSuchFormatCode code)

/-- `Color`→`FormatCode` lookup, `src/syntax/minecraft/format_code/infallible.rs`:
`impl From<Color> for FormatCode`. -/
def fromColor (c : Color) : FormatCode :=
  match c with
  | .black => ⟨'0', .color c⟩
  | .darkBlue => ⟨'1', .color c⟩
  | .darkGreen => ⟨'2', .color c⟩
  | .darkAqua => ⟨'3', .color c⟩
  | .darkRed => ⟨'4', .color c⟩
  | .darkPurple => ⟨'5', .color c⟩
  | .gold => ⟨'6', .color c⟩
  | .gray => ⟨'7', .color c⟩
  | .darkGray => ⟨'8', .color c⟩
  | .blue => ⟨'9', .color c⟩
  | .green => ⟨'a', .color c⟩
  | .aqua => ⟨'b', .color c⟩
  | .red => ⟨'c', .color c⟩
  | .lightPurple => ⟨'d', .color c⟩
  | .yellow => ⟨'e', .color c⟩
  | .white => ⟨'f', .color c⟩

/-- `Format`→`FormatCode` lookup, `src/syntax/minecraft/format_code/infallible.rs`:
`impl From<Format> for FormatCode`. -/
def fromFormat (f : Format) : FormatCode :=
  match f with
  | .color c => fromColor c
  | .obfuscated => ⟨'k', f⟩
  | .bold => ⟨'l', f⟩
  | .strikethrough => ⟨'m', f⟩
  | .underline => ⟨'n', f⟩
  | .italic => ⟨'o', f⟩
  | .reset => ⟨'r', f⟩

end FormatCode

/-- The fixed 22-character recognized code alphabet (spec §4.3 and §6):
the sixteen color digits followed by the six style codes. -/
def codeAlphabet : List Char :=
  ['0', '1', '2', '3'] ++ (['4', '5', '6', '7'] ++ (['8', '9', 'a', 'b'] ++
    (['c', 'd', 'e', 'f'] ++ (['k', 'l', 'm', 'n'] ++ ['o', 'r']))))

/-- The fixed character→entity-name table, composed from
`src/format/html/syntax.rs`: `impl TryFrom<&char> for HtmlEntity` and the
entity→`HtmlEntityValue` name table (`impl From<&HtmlEntity> for HtmlEntityValue`);
`Display for HtmlEntityValue` renders an entity as `"&name;"`. -/
def htmlEntityTable : List (Char × String) :=
  [('\u0022', "quot"), ('\u0027', "apos"), ('&', "amp"), ('<', "lt"),
   ('>', "gt"), ('\u0152', "OElig"), ('\u0153', "oelig"), ('\u0160', "Scaron"),
   ('\u0161', "scaron"), ('\u0178', "Yuml"), ('\u0192', "fnof"), ('\u02c6', "circ"),
   ('\u02dc', "tilde"), ('\u2002', "ensp"), ('\u2003', "emsp"), ('\u2009', "thinsp"),
   ('\u200c', "zwnj"), ('\u200d', "zwj"), ('\u200e', "lrm"), ('\u200f', "rlm"),
   ('\u2013', "ndash"), ('\u2014', "mdash"), ('\u2018', "lsquo"), ('\u2019', "rsquo"),
   ('\u201a', "sbquo"), ('\u201c', "ldquo"), ('\u201d', "rdquo"), ('\u201e', "bdquo"),
   ('\u2020', "dagger"), ('\u2021', "Dagger"), ('\u2022', "bull"), ('\u2026', "hellip"),
   ('\u2030', "permil"), ('\u2032', "prime"), ('\u2033', "Prime"), ('\u2039', "lsaquo"),
   ('\u203a', "rsaquo"), ('\u203e', "oline"), ('\u20ac', "euro"), ('\u2122', "trade"),
   ('\u2190', "larr"), ('\u2191', "uarr"), ('\u2192', "rarr"), ('\u2193', "darr"),
   ('\u2194', "harr"), ('\u21b5', "crarr"), ('\u2308', "lceil"), ('\u2309', "rceil"),
   ('\u230a', "lfloor"), ('\u230b', "rfloor"), ('\u25ca', "loz"), ('\u2660', "spades"),
   ('\u2663', "clubs"), ('\u2665', "hearts"), ('\u2666', "diams"), ('\u2200', "forall"),
   ('\u2202', "part"), ('\u2203', "exist"), ('\u2205', "empty"), ('\u2207', "nabla"),
   ('\u2208', "isin"), ('\u2209', "notin"), ('\u220b', "ni"), ('\u220f', "prod"),
   ('\u2211', "sum"), ('\u2212', "minus"), ('\u2217', "lowast"), ('\u221a', "radic"),
   ('\u221d', "prop"), ('\u221e', "infin"), ('\u2220', "ang"), ('\u2227', "and"),
   ('\u2228', "or"), ('\u2229', "cap"), ('\u222a', "cup"), ('\u222b', "int"),
   ('\u2234', "there4"), ('\u223c', "sim"), ('\u2245', "cong"), ('\u2248', "asymp"),
   ('\u2260', "ne"), ('\u2261', "equiv"), ('\u2264', "le"), ('\u2265', "ge"),
   ('\u2282', "sub"), ('\u2283', "sup"), ('\u2284', "nsub"), ('\u2286', "sube"),
   ('\u2287', "supe"), ('\u2295', "oplus"), ('\u2297', "otimes"), ('\u22a5', "perp"),
   ('\u22c5', "sdot"), ('\u0391', "Alpha"), ('\u0392', "Beta"), ('\u0393', "Gamma"),
   ('\u0394', "Delta"), ('\u0395', "Epsilon"), ('\u0396', "Zeta"), ('\u0397', "Eta"),
   ('\u0398', "Theta"), ('\u0399', "Iota"), ('\u039a', "Kappa"), ('\u039b', "Lambda"),
   ('\u039c', "Mu"), ('\u039d', "Nu"), ('\u039e', "Xi"), ('\u039f', "Omicron"),
   ('\u03a0', "Pi"), ('\u03a1', "Rho"), ('\u03a3', "Sigma"), ('\u03a4', "Tau"),
   ('\u03a5', "Upsilon"), ('\u03a6', "Phi"), ('\u03a7', "Chi"), ('\u03a8', "Psi"),
   ('\u03a9', "Omega"), ('\u03b1', "alpha"), ('\u03b2', "beta"), ('\u03b3', "gamma"),
   ('\u03b4', "delta"), ('\u03b5', "epsilon"), ('\u03b6', "zeta"), ('\u03b7', "eta"),
   ('\u03b8', "theta"), ('\u03b9', "iota"), ('\u03ba', "kappa"), ('\u03bb', "lambda"),
   ('\u03bc', "mu"), ('\u03bd', "nu"), ('\u03be', "xi"), ('\u03bf', "omicron"),
   ('\u03c0', "pi"), ('\u03c1', "rho"), ('\u03c2', "sigmaf"), ('\u03c3', "sigma"),
   ('\u03c4', "tau"), ('\u03c5', "upsilon"), ('\u03c6', "phi"), ('\u03c7', "chi"),
   ('\u03c8', "psi"), ('\u03c9', "omega"), ('\u03d1', "thetasym"), ('\u03d2', "upsih"),
   ('\u03d6', "piv"), ('\u00c0', "Agrave"), ('\u00c1', "Aacute"), ('\u00c2', "Acirc"),
   ('\u00c3', "Atilde"), ('\u00c4', "Auml"), ('\u00c5', "Aring"), ('\u00c6', "AElig"),
   ('\u00c7', "Ccedil"), ('\u00c8', "Egrave"), ('\u00c9', "Eacute"), ('\u00ca', "Ecirc"),
   ('\u00cb', "Euml"), ('\u00cc', "Igrave"), ('\u00cd', "Iacute"), ('\u00ce', "Icirc"),
   ('\u00cf', "Iuml"), ('\u00d0', "ETH"), ('\u00d1', "Ntilde"), ('\u00d2', "Ograve"),
   ('\u00d3', "Oacute"), ('\u00d4', "Ocirc"), ('\u00d5', "Otilde"), ('\u00d6', "Ouml"),
   ('\u00d8', "Oslash"), ('\u00d9', "Ugrave"), ('\u00da', "Uacute"), ('\u00db', "Ucirc"),
   ('\u00dc', "Uuml"), ('\u00dd', "Yacute"), ('\u00de', "THORN"), ('\u00df', "szlig"),
   ('\u00e0', "agrave"), ('\u00e1', "aacute"), ('\u00e2', "acirc"), ('\u00e3', "atilde"),
   ('\u00e4', "auml"), ('\u00e5', "aring"), ('\u00e6', "aelig"), ('\u00e7', "ccedil"),
   ('\u00e8', "egrave"), ('\u00e9', "eacute"), ('\u00ea', "ecirc"), ('\u00eb', "euml"),
   ('\u00ec', "igrave"), ('\u00ed', "iacute"), ('\u00ee', "icirc"), ('\u00ef', "iuml"),
   ('\u00f0', "eth"), ('\u00f1', "ntilde"), ('\u00f2', "ograve"), ('\u00f3', "oacute"),
   ('\u00f4', "ocirc"), ('\u00f5', "otilde"), ('\u00f6', "ouml"), ('\u00f8', "oslash"),
   ('\u00f9', "ugrave"), ('\u00fa', "uacute"), ('\u00fb', "ucirc"), ('\u00fc', "uuml"),
   ('\u00fd', "yacute"), ('\u00fe', "thorn"), ('\u00ff', "yuml"), ('\u00a0', "nbsp"),
   ('\u00a1', "iexcl"), ('\u00a2', "cent"), ('\u00a3', "pound"), ('\u00a4', "curren"),
   ('\u00a5', "yen"), ('\u00a6', "brvbar"), ('\u00a7', "sect"), ('\u00a8', "uml"),
   ('\u00a9', "copy"), ('\u00aa', "ordf"), ('\u00ab', "laquo"), ('\u00ac', "not"),
   ('\u00ad', "shy"), ('\u00ae', "reg"), ('\u00af', "macr"), ('\u00b0', "deg"),
   ('\u00b1', "plusmn"), ('\u00b2', "sup2"), ('\u00b3', "sup3"), ('\u00b4', "acute"),
   ('\u00b5', "micro"), ('\u00b6', "para"), ('\u00b7', "middot"), ('\u00b8', "cedil"),
   ('\u00b9', "sup1"), ('\u00ba', "ordm"), ('\u00bb', "raquo"), ('\u00bc', "frac14"),
   ('\u00bd', "frac12"), ('\u00be', "frac34"), ('\u00bf', "iquest"), ('\u00d7', "times"),
   ('\u00f7', "divide")]

/-- Character→entity-name lookup: composition of
`impl TryFrom<&char> for HtmlEntity` with the entity→name table
(`src/format/html/syntax.rs`); `none` models the `NoSuchCharLiteral` fallthrough. -/
def htmlEntityName (c : Char) : Option String :=
  htmlEntityTable.lookup c

namespace Stendhal

/-- Drop `p` from the front of `l` if it is a prefix, Rust `str::strip_prefix`
(on the character level). -/
def stripPrefixChars : List Char → List Char → Option (List Char)
  | [], s => some s
  | _ :: _, [] => none
  | p :: ps, c :: cs => if p = c then stripPrefixChars ps cs else none

/-- `src/format/stendhal/parse.rs`: `get_field` — take the next line and strip
the required field prefix from it, or fail. -/
def getField (lines : List (List Char)) (field : List Char) :
    Except Error (List Char × List (List Char)) :=
  match lines with
  | [] => .error .unexpectedEndOfIter
  | l :: rest =>
    match stripPrefixChars field l with
    | some r => .ok (r, rest)
    | none => .error .incompleteOrMissingFrontmatter

/-- `src/format/stendhal/parse.rs`: `frontmatter` — parse `"title: "`,
`"author: "`, and `"pages:"` fields from the first three lines, returning the
metadata and the lines after the consumed ones (the advanced iterator). -/
def frontmatter (lines : List (List Char)) :
    Except Error (List Metadata × List (List Char)) :=
  match getField lines "title: ".data with
  | .error e => .error e
  | .ok (t, lines) =>
    match getField lines "author: ".data with
    | .error e => .error e
    | .ok (a, lines) =>
      match getField lines "pages:".data with
      | .error e => .error e
      | .ok (_, lines) =>
        .ok ([Metadata.title (String.mk t), Metadata.author (String.mk a)], lines)

/-- `src/format/stendhal/parse.rs`: `start_of_page` — if the line starts with
`"#- "`, push a `ThematicBreak` and strip the marker. -/
def startOfPage (output : List Token) (l : List Char) : List Token × List Char :=
  match stripPrefixChars "#- ".data l with
  | some stripped => (output ++ [Token.thematicBreak], stripped)
  | none => (output, l)

/-- The inner `flush` of `src/format/stendhal/parse.rs`: `line` — push the word
stack as a `Text` token if it is non-empty. -/
def flush (output : List Token) (wordStack : List Char) : List Token :=
  if wordStack.isEmpty then output else output ++ [Token.text (String.mk wordStack)]

/-- The tracking of `trailing_formatting` in `src/format/stendhal/parse.rs`:
`line` — `!matches!(code, Token::Format(Format::Reset))`. -/
def isNotReset : Format → Bool
  | .reset => false
  | _ => true

/-- The character loop of `src/format/stendhal/parse.rs`: `line`: spaces flush
the word and emit `Space`; `'§'` flushes the word, consumes the code character
and emits `Format`, tracking whether a non-`Reset` format is still open; any
other character extends the word.  At the end the word is flushed, a trailing
open format is closed with a synthetic `Format(Reset)`, and `LineBreak` is
emitted. -/
def lineLoop (output : List Token) (wordStack : List Char) (trailingFormatting : Bool) :
    List Char → Except Error (List Token)
  | [] =>
    let output := flush output wordStack
    let output := if trailingFormatting then output ++ [Token.format .reset] else output
    .ok (output ++ [Token.lineBreak])
  | c :: rest =>
    if c = ' ' then
      lineLoop (flush output wordStack ++ [Token.space]) [] trailingFormatting rest
    else if c = '§' then
      match rest with
      | [] => .error .missingFormatCode
      | code :: rest =>
        match Format.tryFromChar code with
        | .error e => .error e
        | .ok f =>
          lineLoop (flush output wordStack ++ [Token.format f]) [] (isNotReset f) rest
    else
      lineLoop output (wordStack ++ [c]) trailingFormatting rest

/-- `src/format/stendhal/parse.rs`: `line` — parse one line into the output
token vector.  An empty line yields a `ParagraphBreak` alone. -/
def line (output : List Token) (l : List Char) : Except Error (List Token) :=
  if l.isEmpty then .ok (output ++ [Token.paragraphBreak])
  else
    let (output, l) := startOfPage output l
    lineLoop output [] false l

end Stendhal

namespace Html

/-- One step of `src/format/html/token_handling.rs`: `insert_string_as_html` —
write each character of the input, replacing table characters by `"&name;"`. -/
def insertLoop (acc : String) : List Char → String
  | [] => acc
  | c :: rest =>
    match htmlEntityName c with
    | some name => insertLoop (acc ++ "&" ++ name ++ ";") rest
    | none => insertLoop (acc ++ String.singleton c) rest

/-- `src/format/html/token_handling.rs`: `insert_string_as_html`. -/
def insertStringAsHtml (input : String) : String :=
  insertLoop "" input.data

/-- The closing tag written for one popped stack entry in
`src/format/html/token_handling.rs`: `close_formatting_tags`. -/
def closingTag : Format → String
  | .color _ => "</span>"
  | .obfuscated => "</code>"
  | .bold => "</b>"
  | .strikethrough => "</s>"
  | .underline => "</u>"
  | .italic => "</i>"
  | .reset => ""

/-- `src/format/html/token_handling.rs`: `close_formatting_tags` — pop every
stack entry, writing its closing tag; finding `Reset` on the stack is the
`UnexpectedToken` error. -/
def closeFormattingTags : List Format → Except Error String
  | [] => .ok ""
  | .reset :: _ => .error (.unexpectedToken (.format .reset))
  | f :: rest =>
    match closeFormattingTags rest with
    | .error e => .error e
    | .ok s => .ok (closingTag f ++ s)

/-- The opening tag written for one pushed format in
`src/format/html/token_handling.rs`: `handle_format`. -/
def openingTag : Format → String
  | .color c => "<span style=\x27color:" ++ colorDisplay c ++ "\x27>"
  | .obfuscated => "<code>"
  | .bold => "<b>"
  | .strikethrough => "<s>"
  | .underline => "<u>"
  | .italic => "<i>"
  | .reset => ""

/-- `src/format/html/token_handling.rs`: `handle_format` — push a non-`Reset`
format and write its opening tag; on `Reset` close every open tag instead.
Returns the written string and the new stack. -/
def handleFormat (formatTokenStack : List Format) (formatToken : Format) :
    Except Error (String × List Format) :=
  match formatToken with
  | .reset =>
    match closeFormattingTags formatTokenStack with
    | .error e => .error e
    | .ok s => .ok (s, [])
  | f => .ok (openingTag f, f :: formatTokenStack)

/-- `src/format/html/token_handling.rs`: `handle_token` — write the HTML for
one token, threading the format stack. -/
def handleToken (formatTokenStack : List Format) :
    Token → Except Error (String × List Format)
  | .text s => .ok (insertStringAsHtml s, formatTokenStack)
  | .format f => handleFormat formatTokenStack f
  | .space => .ok (" ", formatTokenStack)
  | .lineBreak => .ok ("<br />", formatTokenStack)
  | .paragraphBreak => .ok ("<br />", formatTokenStack)
  | .thematicBreak => .ok ("<hr />", formatTokenStack)

/-- The per-token loop of the renderer in `src/format/html/mod.rs`:
`export_token_vector_to_writer`, threading the accumulated output and the
format stack through `handle_token`. -/
def runTokens (formatTokenStack : List Format) (acc : String) :
    List Token → Except Error (String × List Format)
  | [] => .ok (acc, formatTokenStack)
  | t :: rest =>
    match handleToken formatTokenStack t with
    | .error e => .error e
    | .ok (s, stack) => runTokens stack (acc ++ s) rest

/-- The metadata elements written by `src/format/html/token_handling.rs`:
`start_document` — the strings are spliced in verbatim via `write!`. -/
def metadataHtml : Metadata → String
  | .title t => "<title>" ++ t ++ "</title>"
  | .author a => "<meta name=\"author\" content=\"" ++ a ++ "\" />"

/-- `src/format/html/token_handling.rs`: `start_document` — doctype and head
boilerplate around the metadata elements. -/
def startDocument (metadata : List Metadata) : String :=
  "<!DOCTYPE html><html lang=\"en\" dir=\"ltr\"><head><meta charset=\"utf-8\" />"
    ++ (metadata.foldl (fun acc m => acc ++ metadataHtml m) "")
    ++ "<meta name=\"viewport\" content=\"width=device-width, initial-scale=1.0\" /></head>"

/-- `src/format/html/mod.rs`: `export_token_vector_to_writer` — the head, the
body/article opening, the token loop from an empty format stack, and the
closing tags.  Note the final format stack of the loop is discarded. -/
def exportTokenVector (metadata : List Metadata) (tokens : List Token) :
    Except Error String :=
  let s0 := startDocument metadata ++ "<body><article style=white-space:break-spaces>"
  match runTokens [] s0 tokens with
  | .error e => .error e
  | .ok (s, _) => .ok (s ++ "</article></body></html>")

end Html

/-- The error outcome of a tokenizer run, for comparing failure behaviour. -/
def errOf {α : Type} : Except Error α → Option Error
  | .ok _ => none
  | .error e => some e

/-- Modelled from the spec (§4.2, claim C6 wording): the scan that decides the
failure of the tokenizer: a `'§'` as last character is `MissingFormatCode`, a `'§'`
followed by a character outside the recognized alphabet is `NoSuchFormatCode`,
and everything else scans on. -/
def scanLine : List Char → Option Error
  | [] => none
  | c :: rest =>
    if c = '§' then
      match rest with
      | [] => some .missingFormatCode
      | code :: rest =>
        if code ∈ codeAlphabet then scanLine rest else some (.noSuchFormatCode code)
    else scanLine rest

/-- Modelled from the spec (§4.5, claim C9 wording): the per-character entity
encoding — the named entity for table characters, the character itself
otherwise. -/
def encodeCharSpec (c : Char) : String :=
  match htmlEntityName c with
  | some name => "&" ++ name ++ ";"
  | none => String.singleton c

/-- Modelled from the spec (claim C9 wording): left-to-right concatenation of
the per-character encodings. -/
def concatEncoded : List Char → String
  | [] => ""
  | c :: rest => encodeCharSpec c ++ concatEncoded rest

/-! Helper lemmas about the code table and the tokenizer. -/

theorem tryFromChar_of_mem (c : Char) (hc : c ∈ codeAlphabet) :
    ∃ f, Format.tryFromChar c = .ok f := by
  simp only [codeAlphabet, List.mem_append, List.mem_cons, List.not_mem_nil,
    or_false] at hc
  rcases hc with (rfl | rfl | rfl | rfl) | (rfl | rfl | rfl | rfl) |
    (rfl | rfl | rfl | rfl) | (rfl | rfl | rfl | rfl) | (rfl | rfl | rfl | rfl) |
    rfl | rfl <;> exact ⟨_, rfl⟩

theorem tryFromChar_of_not_mem (c : Char) (hc : c ∉ codeAlphabet) :
    Format.tryFromChar c = .error (.noSuchFormatCode c) := by
  simp only [codeAlphabet, List.mem_append, List.mem_cons, List.not_mem_nil,
    or_false, not_or] at hc
  obtain ⟨⟨h0, h1, h2, h3⟩, ⟨h4, h5, h6, h7⟩, ⟨h8, h9, ha, hb⟩, ⟨hcc, hd, he, hf⟩,
    ⟨hk, hl, hm, hn⟩, ho, hr⟩ := hc
  simp only [Format.tryFromChar, if_neg h0, if_neg h1, if_neg h2, if_neg h3, if_neg h4,
    if_neg h5, if_neg h6, if_neg h7, if_neg h8, if_neg h9, if_neg ha, if_neg hb,
    if_neg hcc, if_neg hd, if_neg he, if_neg hf, if_neg hk, if_neg hl, if_neg hm,
    if_neg hn, if_neg ho, if_neg hr]

theorem formatCode_tryFromChar_of_not_mem (c : Char) (hc : c ∉ codeAlphabet) :
    FormatCode.tryFromChar c = .error (.noSuchFormatCode c) := by
  simp only [codeAlphabet, List.mem_append, List.mem_cons, List.not_mem_nil,
    or_false, not_or] at hc
  obtain ⟨⟨h0, h1, h2, h3⟩, ⟨h4, h5, h6, h7⟩, ⟨h8, h9, ha, hb⟩, ⟨hcc, hd, he, hf⟩,
    ⟨hk, hl, hm, hn⟩, ho, hr⟩ := hc
  simp only [FormatCode.tryFromChar, if_neg h0, if_neg h1, if_neg h2, if_neg h3, if_neg h4,
    if_neg h5, if_neg h6, if_neg h7, if_neg h8, if_neg h9, if_neg ha, if_neg hb,
    if_neg hcc, if_neg hd, if_neg he, if_neg hf, if_neg hk, if_neg hl, if_neg hm,
    if_neg hn, if_neg ho, if_neg hr]

theorem stripPrefixChars_eq_some {p l r : List Char}
    (h : Stendhal.stripPrefixChars p l = some r) : l = p ++ r := by
  induction p generalizing l with
  | nil => simp [Stendhal.stripPrefixChars] at h; simp [h]
  | cons x xs ih =>
    cases l with
    | nil => simp [Stendhal.stripPrefixChars] at h
    | cons c cs =>
      simp only [Stendhal.stripPrefixChars] at h
      by_cases hx : x = c
      · subst hx
        simp only [if_pos rfl] at h
        simp [ih h]
      · simp [if_neg hx] at h

theorem stripPrefixChars_self_append (p s : List Char) :
    Stendhal.stripPrefixChars p (p ++ s) = some s := by
  induction p with
  | nil => rfl
  | cons x xs ih => simp [Stendhal.stripPrefixChars, ih]

theorem flush_append (out : List Token) (word : List Char) :
    Stendhal.flush out word = out ++ Stendhal.flush [] word := by
  by_cases h : word.isEmpty <;> simp [Stendhal.flush, h]

theorem lineLoop_cons (out : List Token) (word : List Char) (t : Bool) (c : Char)
    (rest : List Char) :
    Stendhal.lineLoop out word t (c :: rest) =
      if c = ' ' then Stendhal.lineLoop (Stendhal.flush out word ++ [Token.space]) [] t rest
      else if c = '§' then
        match rest with
        | [] => .error .missingFormatCode
        | code :: rest =>
          match Format.tryFromChar code with
          | .error e => .error e
          | .ok f =>
            Stendhal.lineLoop (Stendhal.flush out word ++ [Token.format f]) []
              (Stendhal.isNotReset f) rest
      else Stendhal.lineLoop out (word ++ [c]) t rest := by
  cases rest <;> rfl

theorem lineLoop_append :
    ∀ (n : Nat) (l : List Char), l.length ≤ n →
    ∀ (out : List Token) (word : List Char) (t : Bool),
    Stendhal.lineLoop out word t l =
      (Stendhal.lineLoop [] word t l).map (fun app => out ++ app) := by
  intro n
  induction n with
  | zero =>
    intro l hl out word t
    have hnil : l = [] := List.length_eq_zero.mp (Nat.le_zero.mp hl)
    subst hnil
    by_cases ht : t <;>
      simp [Stendhal.lineLoop, ht, flush_append out word, List.append_assoc, Except.map]
  | succ n ih =>
    intro l hl out word t
    cases l with
    | nil =>
      by_cases ht : t <;>
        simp [Stendhal.lineLoop, ht, flush_append out word, List.append_assoc, Except.map]
    | cons c rest =>
      have hrest : rest.length ≤ n := by simp at hl; omega
      rw [lineLoop_cons, lineLoop_cons]
      by_cases hsp : c = ' '
      · simp only [if_pos hsp]
        rw [ih rest hrest, ih rest hrest (Stendhal.flush [] word ++ [Token.space])]
        cases Stendhal.lineLoop [] [] t rest <;>
          simp [flush_append out word, List.append_assoc, Except.map]
      · by_cases hpar : c = '§'
        · simp only [if_neg hsp, if_pos hpar]
          cases rest with
          | nil => rfl
          | cons code rest =>
            have hrest2 : rest.length ≤ n := by simp at hl; omega
            cases hf : Format.tryFromChar code with
            | error e => simp [hf, Except.map]
            | ok f =>
              simp only [hf]
              rw [ih rest hrest2, ih rest hrest2
                (Stendhal.flush [] word ++ [Token.format f])]
              cases Stendhal.lineLoop [] [] (Stendhal.isNotReset f) rest <;>
                simp [flush_append out word, List.append_assoc, Except.map]
        · simp only [if_neg hsp, if_neg hpar]
          exact ih rest hrest out (word ++ [c]) t

theorem line_append (out : List Token) (l : List Char) :
    Stendhal.line out l = (Stendhal.line [] l).map (fun app => out ++ app) := by
  by_cases hl : l.isEmpty
  · simp [Stendhal.line, hl, Except.map]
  · simp only [Stendhal.line, hl, if_neg, Bool.false_eq_true, not_false_iff]
    unfold Stendhal.startOfPage
    cases hstrip : Stendhal.stripPrefixChars "#- ".data l with
    | some stripped =>
      simp only [List.nil_append]
      rw [lineLoop_append stripped.length stripped le_rfl,
        lineLoop_append stripped.length stripped le_rfl [Token.thematicBreak]]
      cases Stendhal.lineLoop [] [] false stripped <;> simp [Except.map]
    | none =>
      simp only
      exact lineLoop_append l.length l le_rfl out [] false


/-! Helper lemmas about the stack machine of the renderer. -/

theorem runTokens_append (l1 : List Token) :
    ∀ (st : List Format) (acc : String) (l2 : List Token),
    Html.runTokens st acc (l1 ++ l2) =
      match Html.runTokens st acc l1 with
      | .error e => .error e
      | .ok (s, st2) => Html.runTokens st2 s l2 := by
  induction l1 with
  | nil => intro st acc l2; rfl
  | cons tk rest ih =>
    intro st acc l2
    simp only [List.cons_append, Html.runTokens]
    cases hh : Html.handleToken st tk with
    | error e => rfl
    | ok p =>
      obtain ⟨s, st2⟩ := p
      exact ih st2 (acc ++ s) l2

theorem closeFormattingTags_ok (st : List Format) (h : Format.reset ∉ st) :
    ∃ s, Html.closeFormattingTags st = .ok s := by
  induction st with
  | nil => exact ⟨"", rfl⟩
  | cons f rest ih =>
    simp only [List.mem_cons, not_or] at h
    obtain ⟨s, hs⟩ := ih h.2
    have hf : f ≠ Format.reset := fun hh => h.1 hh.symm
    cases f with
    | reset => exact absurd rfl hf
    | color c =>
      exact ⟨Html.closingTag (.color c) ++ s, by simp [Html.closeFormattingTags, hs]⟩
    | obfuscated =>
      exact ⟨Html.closingTag .obfuscated ++ s, by simp [Html.closeFormattingTags, hs]⟩
    | bold =>
      exact ⟨Html.closingTag .bold ++ s, by simp [Html.closeFormattingTags, hs]⟩
    | strikethrough =>
      exact ⟨Html.closingTag .strikethrough ++ s, by simp [Html.closeFormattingTags, hs]⟩
    | underline =>
      exact ⟨Html.closingTag .underline ++ s, by simp [Html.closeFormattingTags, hs]⟩
    | italic =>
      exact ⟨Html.closingTag .italic ++ s, by simp [Html.closeFormattingTags, hs]⟩

theorem handleFormat_push (st : List Format) (f : Format) (h : f ≠ Format.reset) :
    Html.handleFormat st f = .ok (Html.openingTag f, f :: st) := by
  cases f <;> first | rfl | exact absurd rfl h

theorem handleFormat_reset (st : List Format) (h : Format.reset ∉ st) :
    ∃ s, Html.handleFormat st .reset = .ok (s, []) := by
  obtain ⟨s, hs⟩ := closeFormattingTags_ok st h
  exact ⟨s, by simp [Html.handleFormat, hs]⟩

theorem isNotReset_eq_true {f : Format} (h : f ≠ Format.reset) :
    Stendhal.isNotReset f = true := by
  cases f <;> first | rfl | exact absurd rfl h

theorem runTokens_ok (l : List Token) :
    ∀ (st : List Format) (acc : String), Format.reset ∉ st →
    ∃ s st2, Html.runTokens st acc l = .ok (s, st2) ∧ Format.reset ∉ st2 := by
  induction l with
  | nil => exact fun st acc h => ⟨acc, st, rfl, h⟩
  | cons tk rest ih =>
    intro st acc h
    cases tk with
    | text s =>
      simp only [Html.runTokens, Html.handleToken]
      exact ih st _ h
    | format f =>
      by_cases hf : f = Format.reset
      · subst hf
        obtain ⟨s, hs⟩ := closeFormattingTags_ok st h
        simp only [Html.runTokens, Html.handleToken, Html.handleFormat, hs]
        exact ih [] _ (by simp)
      · simp only [Html.runTokens, Html.handleToken, handleFormat_push st f hf]
        refine ih (f :: st) _ ?_
        simp only [List.mem_cons, not_or]
        exact ⟨fun hh => hf hh.symm, h⟩
    | space =>
      simp only [Html.runTokens, Html.handleToken]
      exact ih st _ h
    | lineBreak =>
      simp only [Html.runTokens, Html.handleToken]
      exact ih st _ h
    | paragraphBreak =>
      simp only [Html.runTokens, Html.handleToken]
      exact ih st _ h
    | thematicBreak =>
      simp only [Html.runTokens, Html.handleToken]
      exact ih st _ h

theorem runTokens_flush_ex (word : List Char) (st : List Format) (acc : String)
    (l2 : List Token) :
    ∃ acc2, Html.runTokens st acc (Stendhal.flush [] word ++ l2) =
      Html.runTokens st acc2 l2 := by
  by_cases h : word.isEmpty
  · exact ⟨acc, by simp [Stendhal.flush, h]⟩
  · exact ⟨acc ++ Html.insertStringAsHtml (String.mk word),
      by simp [Stendhal.flush, h, Html.runTokens, Html.handleToken]⟩

theorem loop_balanced :
    ∀ (n : Nat) (l : List Char), l.length ≤ n →
    ∀ (word : List Char) (t : Bool) (app : List Token),
    Stendhal.lineLoop [] word t l = .ok app →
    ∀ (st : List Format) (acc : String), Format.reset ∉ st → (t = false → st = []) →
    ∃ s, Html.runTokens st acc app = .ok (s, []) := by
  have endCase : ∀ (word : List Char) (t : Bool) (app : List Token),
      Stendhal.lineLoop [] word t [] = .ok app →
      ∀ (st : List Format) (acc : String), Format.reset ∉ st → (t = false → st = []) →
      ∃ s, Html.runTokens st acc app = .ok (s, []) := by
    intro word t app happ st acc hr ht
    cases t with
    | false =>
      have hst : st = [] := ht rfl
      subst hst
      simp only [Stendhal.lineLoop, if_neg (by simp : ¬(false = true))] at happ
      obtain ⟨acc2, hacc⟩ := runTokens_flush_ex word [] acc [Token.lineBreak]
      cases happ
      exact ⟨acc2 ++ "<br />", by rw [hacc]; rfl⟩
    | true =>
      simp only [Stendhal.lineLoop, eq_self_iff_true, if_true] at happ
      cases happ
      rw [List.append_assoc]
      obtain ⟨acc2, hacc⟩ := runTokens_flush_ex word st acc
        ([Token.format Format.reset] ++ [Token.lineBreak])
      rw [hacc]
      obtain ⟨s, hs⟩ := closeFormattingTags_ok st hr
      simp only [List.singleton_append, Html.runTokens, Html.handleToken,
        Html.handleFormat, hs]
      exact ⟨_, rfl⟩
  intro n
  induction n with
  | zero =>
    intro l hl
    have hnil : l = [] := List.length_eq_zero.mp (Nat.le_zero.mp hl)
    subst hnil
    exact endCase
  | succ n ih =>
    intro l hl word t app happ st acc hr ht
    cases l with
    | nil => exact endCase word t app happ st acc hr ht
    | cons c rest =>
      have hrest : rest.length ≤ n := by simp at hl; omega
      rw [lineLoop_cons] at happ
      by_cases hsp : c = ' '
      · rw [if_pos hsp, lineLoop_append n rest hrest] at happ
        cases happ1 : Stendhal.lineLoop [] [] t rest with
        | error e => rw [happ1] at happ; cases happ
        | ok app1 =>
          rw [happ1] at happ
          cases happ
          dsimp only
          rw [List.append_assoc]
          obtain ⟨acc2, hacc⟩ := runTokens_flush_ex word st acc
            ([Token.space] ++ app1)
          rw [hacc]
          simp only [List.singleton_append, Html.runTokens, Html.handleToken]
          exact ih rest hrest [] t app1 happ1 st _ hr ht
      · by_cases hpar : c = '§'
        · rw [if_neg hsp, if_pos hpar] at happ
          cases rest with
          | nil => simp at happ
          | cons code rest2 =>
            dsimp only at happ
            have hrest2 : rest2.length ≤ n := by simp at hl; omega
            cases hf : Format.tryFromChar code with
            | error e => rw [hf] at happ; cases happ
            | ok f =>
              rw [hf] at happ
              simp only at happ
              rw [lineLoop_append n rest2 hrest2] at happ
              cases happ1 : Stendhal.lineLoop [] [] (Stendhal.isNotReset f) rest2 with
              | error e => rw [happ1] at happ; cases happ
              | ok app1 =>
                rw [happ1] at happ
                cases happ
                dsimp only
                rw [List.append_assoc]
                obtain ⟨acc2, hacc⟩ := runTokens_flush_ex word st acc
                  ([Token.format f] ++ app1)
                rw [hacc]
                by_cases hfr : f = Format.reset
                · subst hfr
                  obtain ⟨s, hs⟩ := handleFormat_reset st hr
                  simp only [List.singleton_append, Html.runTokens, Html.handleToken, hs]
                  exact ih rest2 hrest2 [] (Stendhal.isNotReset Format.reset) app1 happ1
                    [] _ (by simp) (fun _ => rfl)
                · simp only [List.singleton_append, Html.runTokens, Html.handleToken,
                    handleFormat_push st f hfr]
                  refine ih rest2 hrest2 [] (Stendhal.isNotReset f) app1 happ1
                    (f :: st) _ ?_ ?_
                  · simp only [List.mem_cons, not_or]
                    exact ⟨fun hh => hfr hh.symm, hr⟩
                  · rw [isNotReset_eq_true hfr]
                    intro hcontra
                    cases hcontra
        · rw [if_neg hsp, if_neg hpar] at happ
          exact ih rest hrest (word ++ [c]) t app happ st acc hr ht


/-! Error behaviour of the tokenizer versus the spec-modelled scan. -/

theorem scanLine_cons (c : Char) (rest : List Char) :
    scanLine (c :: rest) =
      if c = '§' then
        match rest with
        | [] => some .missingFormatCode
        | code :: rest =>
          if code ∈ codeAlphabet then scanLine rest else some (.noSuchFormatCode code)
      else scanLine rest := by
  cases rest <;> rfl

theorem lineLoop_err :
    ∀ (n : Nat) (l : List Char), l.length ≤ n →
    ∀ (out : List Token) (word : List Char) (t : Bool),
    errOf (Stendhal.lineLoop out word t l) = scanLine l := by
  intro n
  induction n with
  | zero =>
    intro l hl out word t
    have hnil : l = [] := List.length_eq_zero.mp (Nat.le_zero.mp hl)
    subst hnil
    rfl
  | succ n ih =>
    intro l hl out word t
    cases l with
    | nil => rfl
    | cons c rest =>
      have hrest : rest.length ≤ n := by simp at hl; omega
      rw [lineLoop_cons, scanLine_cons]
      by_cases hsp : c = ' '
      · have hpar : ¬c = '§' := by subst hsp; decide
        rw [if_pos hsp, if_neg hpar]
        exact ih rest hrest _ [] t
      · by_cases hpar : c = '§'
        · rw [if_neg hsp, if_pos hpar, if_pos hpar]
          cases rest with
          | nil => rfl
          | cons code rest2 =>
            dsimp only
            have hrest2 : rest2.length ≤ n := by simp at hl; omega
            by_cases hcode : code ∈ codeAlphabet
            · obtain ⟨f, hfok⟩ := tryFromChar_of_mem code hcode
              simp only [hfok, if_pos hcode]
              exact ih rest2 hrest2 _ [] (Stendhal.isNotReset f)
            · rw [tryFromChar_of_not_mem code hcode]
              simp only [if_neg hcode]
              rfl
        · rw [if_neg hsp, if_neg hpar, if_neg hpar]
          exact ih rest hrest out (word ++ [c]) t

theorem line_err (out : List Token) (l : List Char) :
    errOf (Stendhal.line out l) = scanLine l := by
  by_cases hl : l.isEmpty
  · have hnil : l = [] := by cases l with | nil => rfl | cons c cs => simp at hl
    subst hnil
    rfl
  · simp only [Stendhal.line, hl, Bool.false_eq_true, if_false]
    unfold Stendhal.startOfPage
    cases hstrip : Stendhal.stripPrefixChars "#- ".data l with
    | some stripped =>
      have hl2 : l = "#- ".data ++ stripped := stripPrefixChars_eq_some hstrip
      subst hl2
      simp only
      rw [lineLoop_err stripped.length stripped le_rfl]
      show scanLine stripped = scanLine ('#' :: '-' :: ' ' :: stripped)
      rw [scanLine_cons, scanLine_cons, scanLine_cons]
      rw [if_neg (by decide), if_neg (by decide), if_neg (by decide)]
    | none =>
      simp only
      exact lineLoop_err l.length l le_rfl out [] false

/-! The per-character entity encoding. -/

theorem insertLoop_concat (l : List Char) :
    ∀ (acc : String), Html.insertLoop acc l = acc ++ concatEncoded l := by
  induction l with
  | nil => intro acc; simp [Html.insertLoop, concatEncoded]
  | cons c rest ih =>
    intro acc
    cases hc : htmlEntityName c with
    | some name =>
      simp [Html.insertLoop, concatEncoded, encodeCharSpec, hc, ih, String.append_assoc]
    | none =>
      simp [Html.insertLoop, concatEncoded, encodeCharSpec, hc, ih, String.append_assoc]

/-! Balance of one tokenized line under the renderer. -/

theorem line_balanced (l : List Char) (app : List Token)
    (h : Stendhal.line [] l = .ok app) :
    ∃ s, Html.runTokens [] "" app = .ok (s, []) := by
  by_cases hl : l.isEmpty
  · have hnil : l = [] := by cases l with | nil => rfl | cons c cs => simp at hl
    subst hnil
    simp only [Stendhal.line, List.isEmpty_nil, if_true, List.nil_append] at h
    cases h
    exact ⟨"<br />", rfl⟩
  · simp only [Stendhal.line, hl, Bool.false_eq_true, if_false] at h
    unfold Stendhal.startOfPage at h
    cases hstrip : Stendhal.stripPrefixChars "#- ".data l with
    | some stripped =>
      rw [hstrip] at h
      simp only [List.nil_append] at h
      rw [lineLoop_append stripped.length stripped le_rfl] at h
      cases happ1 : Stendhal.lineLoop [] [] false stripped with
      | error e => rw [happ1] at h; cases h
      | ok app1 =>
        rw [happ1] at h
        cases h
        dsimp only
        have step : Html.runTokens [] "" ([Token.thematicBreak] ++ app1) =
            Html.runTokens [] "<hr />" app1 := rfl
        rw [step]
        exact loop_balanced stripped.length stripped le_rfl [] false app1 happ1 [] _
          (by simp) (fun _ => rfl)
    | none =>
      rw [hstrip] at h
      simp only at h
      exact loop_balanced l.length l le_rfl [] false app h [] _ (by simp) (fun _ => rfl)

end CraftyNovels

open CraftyNovels

/-- Claim C1: for every line accepted by the Stendhal line tokenizer, the
appended token sequence is style-balanced: running the per-token stack
machine of the HTML renderer over the tokens of that line from an empty format stack
succeeds and ends with an empty format stack. -/
theorem c1_accepted_line_is_style_balanced (out : List Token) (l : List Char)
    (out2 : List Token) (h : Stendhal.line out l = .ok out2) :
    ∃ app s, out2 = out ++ app ∧ Html.runTokens [] "" app = .ok (s, []) := by
  rw [line_append] at h
  cases happ : Stendhal.line [] l with
  | error e => rw [happ] at h; cases h
  | ok app =>
    rw [happ] at h
    simp only [Except.map, Except.ok.injEq] at h
    obtain ⟨s, hs⟩ := line_balanced l app happ
    exact ⟨app, s, h.symm, hs⟩

/-- Witness for C1 at the concrete accepted line `"a"`. -/
theorem c1_witness :
    ∃ app s, ([Token.text "a", Token.lineBreak] : List Token) = [] ++ app ∧
      Html.runTokens [] "" app = .ok (s, []) :=
  c1_accepted_line_is_style_balanced [] ['a'] [Token.text "a", Token.lineBreak] rfl

/-- Claim C2: tokenizing the single line `"Some §cRED text"` appends exactly
the eight claimed tokens in order, and rendering those tokens emits exactly
the claimed span-wrapped body fragment with the red foreground color. -/
theorem c2_round_trip_scenario_three :
    Stendhal.line [] "Some §cRED text".data =
      .ok [Token.text "Some", Token.space, Token.format (.color .red), Token.text "RED",
        Token.space, Token.text "text", Token.format .reset, Token.lineBreak] ∧
    Html.runTokens [] "" [Token.text "Some", Token.space, Token.format (.color .red),
        Token.text "RED", Token.space, Token.text "text", Token.format .reset,
        Token.lineBreak] =
      .ok ("Some <span style=\x27color:#FF5555\x27>RED text</span><br />", []) :=
  ⟨rfl, rfl⟩

set_option maxRecDepth 4096 in
/-- Claim C3 counterexample: exporting the token sequence `[Format(Bold)]`
leaves the format stack non-empty after the last token, yet the emitted
document contains no `"</b>"` at all — the remaining stack entry is dropped,
not closed. -/
theorem c3_counterexample :
    Html.runTokens []
        (Html.startDocument [] ++ "<body><article style=white-space:break-spaces>")
        [Token.format .bold] =
      .ok (Html.startDocument [] ++ "<body><article style=white-space:break-spaces>"
        ++ "<b>", [Format.bold]) ∧
    Html.exportTokenVector [] [Token.format .bold] =
      .ok ("<!DOCTYPE html><html lang=\"en\" dir=\"ltr\"><head><meta charset=\"utf-8\" /><meta name=\"viewport\" content=\"width=device-width, initial-scale=1.0\" /></head><body><article style=white-space:break-spaces><b></article></body></html>") ∧
    ¬ List.IsInfix "</b>".data
      "<!DOCTYPE html><html lang=\"en\" dir=\"ltr\"><head><meta charset=\"utf-8\" /><meta name=\"viewport\" content=\"width=device-width, initial-scale=1.0\" /></head><body><article style=white-space:break-spaces><b></article></body></html>".data :=
  ⟨rfl, rfl, by decide⟩

/-- Claim C3 (amended): when the renderer token loop finishes with a
non-empty format stack, the export emits the closing
`</article></body></html>` immediately after the loop output; the remaining
stack entries are discarded and no closing tags are emitted for them. -/
theorem c3_amended_remaining_formats_dropped (metadata : List Metadata)
    (tokens : List Token) (s : String) (st : List Format)
    (h : Html.runTokens []
      (Html.startDocument metadata ++ "<body><article style=white-space:break-spaces>")
      tokens = .ok (s, st)) :
    Html.exportTokenVector metadata tokens = .ok (s ++ "</article></body></html>") := by
  simp only [Html.exportTokenVector, h]

/-- Witness for the amended C3 at the token sequence `[Format(Bold)]`. -/
theorem c3_amended_witness :
    Html.exportTokenVector [] [Token.format .bold] =
      .ok ((Html.startDocument [] ++ "<body><article style=white-space:break-spaces>"
        ++ "<b>") ++ "</article></body></html>") :=
  c3_amended_remaining_formats_dropped [] [Token.format .bold] _ [Format.bold] rfl

/-- Claim C4 counterexample: a third frontmatter line `"pages: extra"` is not
the exact string `"pages:"`, yet frontmatter parsing succeeds instead of
failing with `IncompleteOrMissingFrontmatter`. -/
theorem c4_counterexample :
    Stendhal.frontmatter ["title: A".data, "author: B".data, "pages: extra".data] =
      .ok ([Metadata.title "A", Metadata.author "B"], []) ∧
    "pages: extra".data ≠ "pages:".data :=
  ⟨rfl, by decide⟩

/-- Claim C4 (amended): with well-formed first two lines, frontmatter parsing
succeeds exactly when the third line starts with the prefix `"pages:"` (any
remainder after the prefix is ignored), and fails with
`IncompleteOrMissingFrontmatter` when the prefix is absent. -/
theorem c4_amended_pages_marker_is_prefix_checked (a b l3 : List Char)
    (rest : List (List Char)) :
    Stendhal.frontmatter (("title: ".data ++ a) :: ("author: ".data ++ b) :: l3 :: rest) =
      match Stendhal.stripPrefixChars "pages:".data l3 with
      | some _ => .ok ([Metadata.title (String.mk a), Metadata.author (String.mk b)], rest)
      | none => .error .incompleteOrMissingFrontmatter := by
  simp only [Stendhal.frontmatter, Stendhal.getField, stripPrefixChars_self_append]
  cases Stendhal.stripPrefixChars "pages:".data l3 <;> rfl

/-- Claim C5: for every input whose first line is `"title: "` followed by `A`,
second line `"author: "` followed by `B`, and a third line accepted as the
`"pages:"` marker, frontmatter parsing returns exactly
`[Title(A), Author(B)]` in that order and leaves exactly the lines after the
three consumed ones. -/
theorem c5_frontmatter_metadata_order (a b l3 : List Char) (rest : List (List Char))
    (r : List Char) (h3 : Stendhal.stripPrefixChars "pages:".data l3 = some r) :
    Stendhal.frontmatter (("title: ".data ++ a) :: ("author: ".data ++ b) :: l3 :: rest) =
      .ok ([Metadata.title (String.mk a), Metadata.author (String.mk b)], rest) := by
  simp only [Stendhal.frontmatter, Stendhal.getField, stripPrefixChars_self_append, h3]

/-- Witness for C5 at the concrete input `["title: A", "author: B", "pages:", "x"]`. -/
theorem c5_witness :
    Stendhal.frontmatter (("title: ".data ++ "A".data) :: ("author: ".data ++ "B".data)
        :: "pages:".data :: ["x".data]) =
      .ok ([Metadata.title (String.mk "A".data), Metadata.author (String.mk "B".data)],
        ["x".data]) :=
  c5_frontmatter_metadata_order "A".data "B".data "pages:".data ["x".data] [] rfl

/-- Claim C6: the line tokenizer fails exactly as the two-case scan predicts —
`MissingFormatCode` for a `'§'` with nothing after it, `NoSuchFormatCode c`
for a `'§'` followed by a character `c` outside the recognized alphabet — and
succeeds on every other line; in particular `"§"` fails with
`MissingFormatCode` and `"§z"` fails with `NoSuchFormatCode('z')`. -/
theorem c6_tokenizer_error_cases (out : List Token) (l : List Char) :
    errOf (Stendhal.line out l) = scanLine l ∧
    Stendhal.line [] ['§'] = .error .missingFormatCode ∧
    Stendhal.line [] ['§', 'z'] = .error (.noSuchFormatCode 'z') :=
  ⟨line_err out l, rfl, rfl⟩

/-- Claim C7: the format-code table is a total bijection over the fixed
22-character alphabet: every alphabet character resolves to a `FormatCode`
carrying that same character whose format maps back to the same code; every
`Format` round-trips through its code; every character outside the alphabet
yields `NoSuchFormatCode`, never a default. -/
theorem c7_format_code_bijection :
    (∀ c ∈ codeAlphabet, ∃ fc, FormatCode.tryFromChar c = .ok fc ∧ fc.code = c ∧
      FormatCode.fromFormat fc.format = fc) ∧
    (∀ f : Format, FormatCode.tryFromChar (FormatCode.fromFormat f).code =
      .ok (FormatCode.fromFormat f)) ∧
    (∀ c ∉ codeAlphabet, FormatCode.tryFromChar c = .error (.noSuchFormatCode c)) := by
  refine ⟨?_, ?_, ?_⟩
  · intro c hc
    simp only [codeAlphabet, List.mem_append, List.mem_cons, List.not_mem_nil,
      or_false] at hc
    rcases hc with (rfl | rfl | rfl | rfl) | (rfl | rfl | rfl | rfl) |
      (rfl | rfl | rfl | rfl) | (rfl | rfl | rfl | rfl) | (rfl | rfl | rfl | rfl) |
      rfl | rfl <;> exact ⟨_, rfl, rfl, rfl⟩
  · intro f
    cases f with
    | color c => cases c <;> rfl
    | obfuscated => rfl
    | bold => rfl
    | strikethrough => rfl
    | underline => rfl
    | italic => rfl
    | reset => rfl
  · exact fun c hc => formatCode_tryFromChar_of_not_mem c hc

/-- Witness for C7 at the concrete characters `'c'` (in the alphabet),
`'z'` (outside it), and the format `Bold`. -/
theorem c7_witness :
    (∃ fc, FormatCode.tryFromChar 'c' = .ok fc ∧ fc.code = 'c' ∧
      FormatCode.fromFormat fc.format = fc) ∧
    FormatCode.tryFromChar (FormatCode.fromFormat Format.bold).code =
      .ok (FormatCode.fromFormat Format.bold) ∧
    FormatCode.tryFromChar 'z' = .error (.noSuchFormatCode 'z') :=
  ⟨c7_format_code_bijection.1 'c' (by decide), c7_format_code_bijection.2.1 Format.bold,
    c7_format_code_bijection.2.2 'z' (by decide)⟩

/-- Claim C8: for every token sequence passed through the HTML export entry
point (which initializes the format stack empty), the export never fails in
the pure model — in particular the `UnexpectedToken` branch of
`close_formatting_tags` is unreachable — because `handle_format` never pushes
`Format::Reset` onto the stack. -/
theorem c8_export_unexpected_token_unreachable :
    (∀ (metadata : List Metadata) (tokens : List Token),
      ∃ s, Html.exportTokenVector metadata tokens = .ok s) ∧
    (∀ (st : List Format) (f : Format) (s : String) (st2 : List Format),
      Html.handleFormat st f = .ok (s, st2) → Format.reset ∉ st → Format.reset ∉ st2) := by
  constructor
  · intro metadata tokens
    obtain ⟨s, st2, h, _⟩ := runTokens_ok tokens []
      (Html.startDocument metadata ++ "<body><article style=white-space:break-spaces>")
      (by simp)
    exact ⟨s ++ "</article></body></html>", by simp [Html.exportTokenVector, h]⟩
  · intro st f s st2 h hst
    by_cases hf : f = Format.reset
    · subst hf
      simp only [Html.handleFormat] at h
      cases hc : Html.closeFormattingTags st with
      | error e => rw [hc] at h; cases h
      | ok s2 => rw [hc] at h; cases h; simp
    · rw [handleFormat_push st f hf] at h
      cases h
      simp only [List.mem_cons, not_or]
      exact ⟨fun hh => hf hh.symm, hst⟩

/-- Witness for C8: a concrete export succeeds, and a concrete non-`Reset`
push keeps the stack free of `Reset`. -/
theorem c8_witness :
    (∃ s, Html.exportTokenVector [] [Token.format .bold] = .ok s) ∧
    Format.reset ∉ ([Format.bold] : List Format) :=
  ⟨c8_export_unexpected_token_unreachable.1 [] [Token.format .bold],
    c8_export_unexpected_token_unreachable.2 [] Format.bold (Html.openingTag .bold)
      [Format.bold] rfl (by simp)⟩

/-- Claim C9: for every `Text` token string the emitted output is the
left-to-right concatenation, over the characters, of the named entity
`"&name;"` for table characters and the character itself otherwise; there is
no lookahead, so `'&'` is always emitted as `"&amp;"`, and the already-encoded
input `"&amp;"` re-encodes to `"&amp;amp;"`. -/
theorem c9_entity_encoding_per_character :
    (∀ s : String, Html.insertStringAsHtml s = concatEncoded s.data) ∧
    encodeCharSpec '&' = "&amp;" ∧
    Html.insertStringAsHtml "&amp;" = "&amp;amp;" := by
  refine ⟨?_, rfl, rfl⟩
  intro s
  unfold Html.insertStringAsHtml
  rw [insertLoop_concat]
  simp

/-- Claim C10: title and author metadata are spliced into the head verbatim,
with no entity encoding — any HTML-significant characters in them appear
unescaped — whereas the body `Text` path encodes `'<'`, `'>'`, `'&'`, `'"'`
as entities. -/
theorem c10_metadata_not_entity_encoded (t a : String) :
    Html.startDocument [Metadata.title t, Metadata.author a] =
      "<!DOCTYPE html><html lang=\"en\" dir=\"ltr\"><head><meta charset=\"utf-8\" />"
        ++ ("<title>" ++ t ++ "</title>")
        ++ ("<meta name=\"author\" content=\"" ++ a ++ "\" />")
        ++ "<meta name=\"viewport\" content=\"width=device-width, initial-scale=1.0\" /></head>" ∧
    Html.insertStringAsHtml "<" = "&lt;" ∧ Html.insertStringAsHtml ">" = "&gt;" ∧
    Html.insertStringAsHtml "&" = "&amp;" ∧ Html.insertStringAsHtml "\"" = "&quot;" := by
  refine ⟨?_, rfl, rfl, rfl, rfl⟩
  simp [Html.startDocument, Html.metadataHtml, String.append_assoc]
